import Mathlib

/-!
Verification of the PacketOps packet-generation library.

The definitions below are a shallow embedding of the Python sources:

* `tools.py`        — `carry_around_add`, `chksum` (the ChecksumEngine)
* `ip_generator.py` — `IPGenerator` and `IPGenerator.pack`
* `tcp_generator.py`— `TCPGenerator` and `TCPGenerator.pack`
* `icmp_generator.py` — `ICMPGenerator`, `ICMPGenerator.pack`, `Ping`

Machine integers are modelled as `Nat` (Python integers are unbounded
non-negative here); byte strings as `List Nat` with entries below 256;
code that raises an exception is modelled as returning `none` together
with the object state at the moment of the raise (Python's `except`
blocks in this repository print and terminate the process, so no caller
ever observes a partially packed result).
-/

/-! ## ChecksumEngine (`tools.py`) -/

/-- Embedding of `_carry_around_add` from `tools.py`: add the two numbers
and fold the overflow above bit 16 back into the low 16 bits once. -/
def carry_around_add (a b : Nat) : Nat :=
  let c := a + b
  (c >>> 16) + (c &&& 0xffff)

/-- Embedding of Python `int.from_bytes(header, 'big')`: big-endian byte
string to integer. -/
def bytesToNat (bs : List Nat) : Nat :=
  bs.foldl (fun acc b => acc * 256 + b) 0

/-- Embedding of the `while header > 0` loop of `chksum`: extract 8-bit
words from the least-significant end.  The loop terminates after at most
one iteration per byte of the original string, so the caller passes the
byte-string length as structural fuel; `toWords_fuel_irrelevant` below
shows the result does not depend on the fuel once it is large enough. -/
def toWords : Nat → Nat → List Nat
  | 0, _ => []
  | fuel + 1, header => if header = 0 then [] else
      (header &&& 0xff) :: toWords fuel (header >>> 8)

/-- Embedding of the odd-length fix-up of `chksum`: append an extra 0 to
create an even number of 8-bit words. -/
def evenize (words : List Nat) : List Nat :=
  if words.length % 2 = 1 then words ++ [0] else words

/-- Embedding of the summation loop of `chksum`: combine the 8-bit words
two at a time into 16-bit words (`(words[i+1] <<< 8) + words[i]`) and
accumulate them with `carry_around_add`.  A trailing singleton never
occurs in `chksum` because the list was evenized (in Python it would be
an out-of-range index). -/
def sumLoop : Nat → List Nat → Nat
  | sum_, w0 :: w1 :: rest => sumLoop (carry_around_add sum_ ((w1 <<< 8) + w0)) rest
  | sum_, _ => sum_

/-- Embedding of `chksum` from `tools.py`.  The final `~sum_ & 0xffff` of
the Python source equals `65535 - sum_ % 65536` on non-negative `sum_`,
because Python's `&` of a negative number uses its infinite two's
complement. -/
def chksum (header : List Nat) : Nat :=
  let n := bytesToNat header
  let words := evenize (toWords header.length n)
  65535 - (sumLoop 0 words) % 65536

/-! ## Reference definitions used by the claims

`foldCarry` is the fold-until-no-carry-remains operation named by the
numerical claim about `carry_around_add`, and `rfc1071_reference` is the
straightforward RFC 1071 checksum written from the claim's own words:
one's-complement sum of consecutive 16-bit big-endian words of the
original byte sequence, complemented and masked to 16 bits. -/

/-- Fold the carry out of bit 16 back into the low 16 bits, repeatedly,
until no carry remains. -/
def foldCarry (n : Nat) : Nat :=
  if h : n < 65536 then n else foldCarry ((n >>> 16) + (n &&& 0xffff))
termination_by n
decreasing_by
  have h16 : n >>> 16 = n / 65536 := Nat.shiftRight_eq_div_pow n 16
  have hm : n &&& 0xffff = n % 65536 := by
    have : (0xffff : Nat) = 2 ^ 16 - 1 := by norm_num
    rw [this, Nat.and_pow_two_sub_one_eq_mod]
  rw [h16, hm]
  omega

/-- Consecutive 16-bit big-endian words of a byte sequence (with the RFC
trailing zero-byte pad for an odd final byte; the even-length claims
never reach the singleton case). -/
def beWords : List Nat → List Nat
  | b1 :: b2 :: rest => (b1 * 256 + b2) :: beWords rest
  | [b] => [b * 256]
  | [] => []

/-- Spec-side reference checksum (RFC 1071, written from the claim's
words): one's-complement sum of the consecutive 16-bit big-endian words
of the byte sequence — each addition folds carries until none remain —
then complemented and masked to 16 bits. -/
def rfc1071_reference (bs : List Nat) : Nat :=
  65535 - ((beWords bs).foldl (fun s w => foldCarry (s + w)) 0) % 65536

/-- Canonical form of a one's-complement running sum: congruent to the
plain sum modulo 65535, zero exactly when the plain sum is zero.  Proof
helper, not part of the embedding. -/
def ocNorm (x : Nat) : Nat :=
  if x = 0 then 0 else (x - 1) % 65535 + 1

/-- Sum of the base-65536 digits of a number.  Proof helper. -/
def digitSum16 (n : Nat) : Nat :=
  if n = 0 then 0 else n % 65536 + digitSum16 (n / 65536)
termination_by n
decreasing_by exact Nat.div_lt_self (by omega) (by omega)

/-- Plain sum of the 16-bit words formed by the pairing loop of
`chksum`.  Proof helper. -/
def pairSum : List Nat → Nat
  | w0 :: w1 :: rest => ((w1 <<< 8) + w0) + pairSum rest
  | _ => 0

/-! ## Byte packing (Python `struct.pack`, network byte order)

Each directive checks its range exactly as CPython `struct` does and
produces big-endian bytes; `none` models the `struct.error` raise. -/

/-- Pack format `B`: one unsigned byte. -/
def packB (x : Nat) : Option (List Nat) :=
  if x < 256 then some [x] else none

/-- Pack format `!H`: unsigned 16-bit, big-endian. -/
def packH (x : Nat) : Option (List Nat) :=
  if x < 65536 then some [x / 256, x % 256] else none

/-- Pack format `!L` and `!I`: unsigned 32-bit, big-endian. -/
def packL (x : Nat) : Option (List Nat) :=
  if x < 4294967296 then
    some [x / 16777216, x / 65536 % 256, x / 256 % 256, x % 256]
  else none

/-- Pack format `'!BBHHBBBBHLL'` used by `IPGenerator.pack`. -/
def structIP (b0 b1 totalLen id_ b6 b7 ttl proto ck src dst : Nat) :
    Option (List Nat) := do
  let x0 ← packB b0
  let x1 ← packB b1
  let x2 ← packH totalLen
  let x3 ← packH id_
  let x4 ← packB b6
  let x5 ← packB b7
  let x6 ← packB ttl
  let x7 ← packB proto
  let x8 ← packH ck
  let x9 ← packL src
  let x10 ← packL dst
  return x0 ++ x1 ++ x2 ++ x3 ++ x4 ++ x5 ++ x6 ++ x7 ++ x8 ++ x9 ++ x10

/-- Pack format `'!HHIIBBHHH'` used by `TCPGenerator.pack`. -/
def structTCP (srcPort dstPort sqn ack b13 b14 win ck urg : Nat) :
    Option (List Nat) := do
  let x0 ← packH srcPort
  let x1 ← packH dstPort
  let x2 ← packL sqn
  let x3 ← packL ack
  let x4 ← packB b13
  let x5 ← packB b14
  let x6 ← packH win
  let x7 ← packH ck
  let x8 ← packH urg
  return x0 ++ x1 ++ x2 ++ x3 ++ x4 ++ x5 ++ x6 ++ x7 ++ x8

/-- Pack format `'!IIBBH'` used for the TCP pseudo header. -/
def structPseudo (src dst zeroByte proto tcpLen : Nat) : Option (List Nat) := do
  let x0 ← packL src
  let x1 ← packL dst
  let x2 ← packB zeroByte
  let x3 ← packB proto
  let x4 ← packH tcpLen
  return x0 ++ x1 ++ x2 ++ x3 ++ x4

/-- Pack format `'!BBHI'` used by `ICMPGenerator.pack`. -/
def structICMP (type_ code ck opt : Nat) : Option (List Nat) := do
  let x0 ← packB type_
  let x1 ← packB code
  let x2 ← packH ck
  let x3 ← packL opt
  return x0 ++ x1 ++ x2 ++ x3

/-! ## IPGenerator (`ip_generator.py`) -/

/-- Fields of an `IPGenerator` object, with the same names and order as
in `ip_generator.py`. -/
structure IPGenerator where
  ip_version : Nat
  ip_hdr_len : Nat
  ip_dscp : Nat
  ip_ecn : Nat
  ip_total_len : Nat
  ip_id : Nat
  ip_flag : Nat
  ip_frag_offset : Nat
  ip_ttl : Nat
  ip_protocol : Nat
  ip_hdr_chksum : Nat
  ip_src_ip : Nat
  ip_dst_ip : Nat
deriving DecidableEq

/-- Embedding of `IPGenerator.__init__`: the constructor defaults, with
the protocol number taken from the `IPProtocol` enum value passed in. -/
def mkIPGenerator (ip_protocol : Nat) : IPGenerator :=
  { ip_version := 4, ip_hdr_len := 5, ip_dscp := 0, ip_ecn := 0
    ip_total_len := 0, ip_id := 1, ip_flag := 2, ip_frag_offset := 0
    ip_ttl := 255, ip_protocol := ip_protocol, ip_hdr_chksum := 0
    ip_src_ip := 0, ip_dst_ip := 0 }

/-- Embedding of `IPGenerator.pack`.  Returns the packed bytes (or
`none` where the Python code would hit `struct.error` and terminate)
together with the mutated object state.  Mutations happen in source
order: total length, checksum zeroed, checksum computed from the initial
pack, identification incremented, final pack. -/
def IPGenerator.pack (s : IPGenerator) (payload_data_length : Nat) :
    Option (List Nat) × IPGenerator :=
  let s := { s with ip_total_len := s.ip_hdr_len * 4 + payload_data_length }
  let s := { s with ip_hdr_chksum := 0 }
  let b0 := (s.ip_version <<< 4) ||| s.ip_hdr_len
  let b1 := (s.ip_dscp <<< 2) ||| s.ip_ecn
  let b6 := (s.ip_flag <<< 5) ||| (s.ip_frag_offset >>> 8)
  let b7 := s.ip_frag_offset &&& 0xff
  match structIP b0 b1 s.ip_total_len s.ip_id b6 b7 s.ip_ttl s.ip_protocol
      s.ip_hdr_chksum s.ip_src_ip s.ip_dst_ip with
  | none => (none, s)
  | some chksum_data =>
    let s := { s with ip_hdr_chksum := chksum chksum_data }
    let s := { s with ip_id := if s.ip_id < 0xFFFF then s.ip_id + 1 else 1 }
    match structIP b0 b1 s.ip_total_len s.ip_id b6 b7 s.ip_ttl s.ip_protocol
        s.ip_hdr_chksum s.ip_src_ip s.ip_dst_ip with
    | none => (none, s)
    | some out => (some out, s)

/-! ## TCPGenerator (`tcp_generator.py`) -/

/-- Fields of a `TCPGenerator` object.  The Python class inherits from
`IPGenerator`; the inherited fields are modelled as the `ip` component.
The randomized initial sequence number is a constructor argument. -/
structure TCPGenerator where
  tcp_src_port : Nat
  tcp_dst_port : Nat
  tcp_sqn : Nat
  tcp_ack : Nat
  tcp_hdr_length : Nat
  tcp_reserved : Nat
  tcp_flag_ns : Nat
  tcp_flag_cwr : Nat
  tcp_flag_ece : Nat
  tcp_flag_urg : Nat
  tcp_flag_ack : Nat
  tcp_flag_psh : Nat
  tcp_flag_rst : Nat
  tcp_flag_syn : Nat
  tcp_flag_fin : Nat
  tcp_win_size : Nat
  tcp_hdr_chksum : Nat
  tcp_urg_pntr : Nat
  tcp_opts : Nat
  payload : List Nat
  ip : IPGenerator
deriving DecidableEq

/-- Embedding of `TCPGenerator.__init__` with the random initial
sequence number passed in as `sqn`. -/
def mkTCPGenerator (sqn : Nat) (payload : List Nat) : TCPGenerator :=
  { tcp_src_port := 0, tcp_dst_port := 0, tcp_sqn := sqn, tcp_ack := 0
    tcp_hdr_length := 5, tcp_reserved := 0, tcp_flag_ns := 0
    tcp_flag_cwr := 0, tcp_flag_ece := 0, tcp_flag_urg := 0
    tcp_flag_ack := 0, tcp_flag_psh := 0, tcp_flag_rst := 0
    tcp_flag_syn := 0, tcp_flag_fin := 0, tcp_win_size := 65535
    tcp_hdr_chksum := 0, tcp_urg_pntr := 0, tcp_opts := 0
    payload := payload, ip := mkIPGenerator 6 }

/-- Embedding of `TCPGenerator.pack`.  The checksum field is zeroed
first (a mutation that survives the options raise), then the options
check runs, then the header is packed, checksummed over pseudo header ++
header ++ payload, re-packed, and the embedded IP header is packed. -/
def TCPGenerator.pack (s0 : TCPGenerator) : Option (List Nat) × TCPGenerator :=
  let s := { s0 with tcp_hdr_chksum := 0 }
  if s.tcp_opts ≠ 0 then (none, s) else
  let byte13 := (s.tcp_hdr_length <<< 4) ||| s.tcp_flag_ns
  let byte14 := s.tcp_flag_cwr
  let byte14 := (byte14 <<< 1) ||| s.tcp_flag_ece
  let byte14 := (byte14 <<< 1) ||| s.tcp_flag_urg
  let byte14 := (byte14 <<< 1) ||| s.tcp_flag_ack
  let byte14 := (byte14 <<< 1) ||| s.tcp_flag_psh
  let byte14 := (byte14 <<< 1) ||| s.tcp_flag_rst
  let byte14 := (byte14 <<< 1) ||| s.tcp_flag_syn
  let byte14 := (byte14 <<< 1) ||| s.tcp_flag_fin
  let tcp_len := s.tcp_hdr_length * 4 + s.payload.length
  match structPseudo s.ip.ip_src_ip s.ip.ip_dst_ip 0 s.ip.ip_protocol tcp_len with
  | none => (none, s)
  | some psuedo_hdr =>
    match structTCP s.tcp_src_port s.tcp_dst_port s.tcp_sqn s.tcp_ack byte13
        byte14 s.tcp_win_size s.tcp_hdr_chksum s.tcp_urg_pntr with
    | none => (none, s)
    | some chksum_data =>
      let s := { s with
        tcp_hdr_chksum := chksum (psuedo_hdr ++ chksum_data ++ s.payload) }
      match structTCP s.tcp_src_port s.tcp_dst_port s.tcp_sqn s.tcp_ack byte13
          byte14 s.tcp_win_size s.tcp_hdr_chksum s.tcp_urg_pntr with
      | none => (none, s)
      | some tcp_data =>
        match s.ip.pack (tcp_data.length + s.payload.length) with
        | (none, ip') => (none, { s with ip := ip' })
        | (some ip_data, ip') =>
          (some (ip_data ++ tcp_data ++ s.payload), { s with ip := ip' })

/-! ## ICMPGenerator and Ping (`icmp_generator.py`) -/

/-- Fields of an `ICMPGenerator` object; inherited `IPGenerator` fields
are the `ip` component. -/
structure ICMPGenerator where
  icmp_type : Nat
  icmp_code : Nat
  icmp_hdr_chksum : Nat
  icmp_opt : Nat
  payload : List Nat
  ip : IPGenerator
deriving DecidableEq

/-- Embedding of `ICMPGenerator.__init__` with the `ICMPType` enum value
passed as a number. -/
def mkICMPGenerator (type_ : Nat) (payload : List Nat) (code : Nat := 0) :
    ICMPGenerator :=
  { icmp_type := type_, icmp_code := code, icmp_hdr_chksum := 0
    icmp_opt := 0, payload := payload, ip := mkIPGenerator 1 }

/-- Embedding of `ICMPGenerator.pack`: zero the checksum, pack, compute
the checksum over header ++ payload, re-pack, pack the IP header, and
concatenate. -/
def ICMPGenerator.pack (s0 : ICMPGenerator) : Option (List Nat) × ICMPGenerator :=
  let s := { s0 with icmp_hdr_chksum := 0 }
  match structICMP s.icmp_type s.icmp_code s.icmp_hdr_chksum s.icmp_opt with
  | none => (none, s)
  | some hdr0 =>
    let chksum_data := hdr0 ++ s.payload
    let s := { s with icmp_hdr_chksum := chksum chksum_data }
    match structICMP s.icmp_type s.icmp_code s.icmp_hdr_chksum s.icmp_opt with
    | none => (none, s)
    | some hdr1 =>
      let icmp_data := hdr1 ++ s.payload
      match s.ip.pack icmp_data.length with
      | (none, ip') => (none, { s with ip := ip' })
      | (some ip_data, ip') => (some (ip_data ++ icmp_data), { s with ip := ip' })

/-- Default `message` argument of `Ping.__init__`:
`b'ABCDEFGHIJKLMNOPQRSTUVWXYZ'`. -/
def pingDefaultMessage : List Nat :=
  [65, 66, 67, 68, 69, 70, 71, 72, 73, 74, 75, 76, 77,
   78, 79, 80, 81, 82, 83, 84, 85, 86, 87, 88, 89, 90]

/-- Embedding of `Ping.__init__` with the random 16-bit identifier
passed in as `id_`: odd-length messages gain one trailing space byte,
and the option field starts as `id_ <<< 16`. -/
def mkPing (id_ : Nat) (message : List Nat := pingDefaultMessage) :
    ICMPGenerator :=
  let message := if message.length % 2 ≠ 0 then message ++ [32] else message
  { mkICMPGenerator 8 message with icmp_opt := id_ <<< 16 }

/-- Embedding of `Ping.pack`: increment the option field (the sequence
number lives in its low 16 bits), then delegate to
`ICMPGenerator.pack`. -/
def Ping.pack (s : ICMPGenerator) : Option (List Nat) × ICMPGenerator :=
  ICMPGenerator.pack { s with icmp_opt := s.icmp_opt + 1 }

/-- Repeated `Ping.pack` calls: the object state after `k` calls. -/
def pingCalls (s : ICMPGenerator) : Nat → ICMPGenerator
  | 0 => s
  | k + 1 => (Ping.pack (pingCalls s k)).2

/-- Repeated `IPGenerator.pack` calls with a fixed payload length: the
object state after `k` calls. -/
def ipCalls (n : Nat) (s : IPGenerator) : Nat → IPGenerator
  | 0 => s
  | k + 1 => ((ipCalls n s k).pack n).2

/-! ## Range predicates and statement-level helpers -/

/-- Every `IPGenerator` field fits its declared bit width (the widths
annotated in `ip_generator.py`); under this predicate none of the
`struct.pack` calls of `IPGenerator.pack` can fail. -/
def IPInRange (s : IPGenerator) : Prop :=
  s.ip_version < 16 ∧ s.ip_hdr_len < 16 ∧ s.ip_dscp < 64 ∧ s.ip_ecn < 4 ∧
  s.ip_id < 65536 ∧ s.ip_flag < 8 ∧ s.ip_frag_offset < 8192 ∧
  s.ip_ttl < 256 ∧ s.ip_protocol < 256 ∧
  s.ip_src_ip < 4294967296 ∧ s.ip_dst_ip < 4294967296

instance (s : IPGenerator) : Decidable (IPInRange s) :=
  inferInstanceAs (Decidable (_ ∧ _))

/-- Every TCP-layer field of a `TCPGenerator` fits its declared bit
width. -/
def TCPInRange (s : TCPGenerator) : Prop :=
  s.tcp_src_port < 65536 ∧ s.tcp_dst_port < 65536 ∧
  s.tcp_sqn < 4294967296 ∧ s.tcp_ack < 4294967296 ∧
  s.tcp_hdr_length < 16 ∧ s.tcp_flag_ns < 2 ∧ s.tcp_flag_cwr < 2 ∧
  s.tcp_flag_ece < 2 ∧ s.tcp_flag_urg < 2 ∧ s.tcp_flag_ack < 2 ∧
  s.tcp_flag_psh < 2 ∧ s.tcp_flag_rst < 2 ∧ s.tcp_flag_syn < 2 ∧
  s.tcp_flag_fin < 2 ∧ s.tcp_win_size < 65536 ∧ s.tcp_urg_pntr < 65536

instance (s : TCPGenerator) : Decidable (TCPInRange s) :=
  inferInstanceAs (Decidable (_ ∧ _))

/-- Every ICMP-layer field of an `ICMPGenerator` fits its declared bit
width. -/
def ICMPInRange (s : ICMPGenerator) : Prop :=
  s.icmp_type < 256 ∧ s.icmp_code < 256 ∧ s.icmp_opt < 4294967296

instance (s : ICMPGenerator) : Decidable (ICMPInRange s) :=
  inferInstanceAs (Decidable (_ ∧ _))

/-- The identification step of `IPGenerator.pack`: increment, wrapping
from 0xFFFF back to 1. -/
def nextIPId (i : Nat) : Nat :=
  if i < 0xFFFF then i + 1 else 1

/-- The twenty header bytes produced by a successful
`structIP b0 b1 tl id b6 b7 ttl proto ck src dst`, written out. -/
def ipHeaderBytes (b0 b1 totalLen id_ b6 b7 ttl proto ck src dst : Nat) :
    List Nat :=
  [b0, b1, totalLen / 256, totalLen % 256, id_ / 256, id_ % 256, b6, b7,
   ttl, proto, ck / 256, ck % 256,
   src / 16777216, src / 65536 % 256, src / 256 % 256, src % 256,
   dst / 16777216, dst / 65536 % 256, dst / 256 % 256, dst % 256]

/-! ## RFC 791 layout parsing (for the round-trip claim)

These read a serialized 20-byte IPv4 header back according to the
RFC 791 field layout quoted in the spec. -/

/-- Byte `i` of a serialized header. -/
def byteAt (h : List Nat) (i : Nat) : Nat := h.getD i 0

/-- Version: high nibble of byte 0. -/
def parseVersion (h : List Nat) : Nat := byteAt h 0 / 16

/-- Header length in 32-bit words: low nibble of byte 0. -/
def parseIHL (h : List Nat) : Nat := byteAt h 0 % 16

/-- DSCP: high six bits of byte 1. -/
def parseDSCP (h : List Nat) : Nat := byteAt h 1 / 4

/-- ECN: low two bits of byte 1. -/
def parseECN (h : List Nat) : Nat := byteAt h 1 % 4

/-- Total length: bytes 2-3, big-endian. -/
def parseTotalLen (h : List Nat) : Nat := byteAt h 2 * 256 + byteAt h 3

/-- Identification: bytes 4-5, big-endian. -/
def parseId (h : List Nat) : Nat := byteAt h 4 * 256 + byteAt h 5

/-- Flags: high three bits of byte 6. -/
def parseFlags (h : List Nat) : Nat := byteAt h 6 / 32

/-- Fragment offset: low five bits of byte 6 and all of byte 7. -/
def parseFragOffset (h : List Nat) : Nat := byteAt h 6 % 32 * 256 + byteAt h 7

/-- Time to live: byte 8. -/
def parseTTL (h : List Nat) : Nat := byteAt h 8

/-- Protocol: byte 9. -/
def parseProtocol (h : List Nat) : Nat := byteAt h 9

/-- Header checksum: bytes 10-11, big-endian. -/
def parseChecksum (h : List Nat) : Nat := byteAt h 10 * 256 + byteAt h 11

/-- Source address: bytes 12-15, big-endian. -/
def parseSrc (h : List Nat) : Nat :=
  byteAt h 12 * 16777216 + byteAt h 13 * 65536 + byteAt h 14 * 256 + byteAt h 15

/-- Destination address: bytes 16-19, big-endian. -/
def parseDst (h : List Nat) : Nat :=
  byteAt h 16 * 16777216 + byteAt h 17 * 65536 + byteAt h 18 * 256 + byteAt h 19

/-! ## Characterization helpers (explicit byte forms)

These name the byte lists and successor states that the `pack` methods
produce on in-range fields; the characterization theorems below prove
that the embeddings equal them. -/

/-- Byte 0 of the IP header as computed in `IPGenerator.pack`. -/
def ipB0 (s : IPGenerator) : Nat := (s.ip_version <<< 4) ||| s.ip_hdr_len

/-- Byte 1 of the IP header as computed in `IPGenerator.pack`. -/
def ipB1 (s : IPGenerator) : Nat := (s.ip_dscp <<< 2) ||| s.ip_ecn

/-- Byte 6 of the IP header as computed in `IPGenerator.pack`. -/
def ipB6 (s : IPGenerator) : Nat := (s.ip_flag <<< 5) ||| (s.ip_frag_offset >>> 8)

/-- Byte 7 of the IP header as computed in `IPGenerator.pack`. -/
def ipB7 (s : IPGenerator) : Nat := s.ip_frag_offset &&& 0xff

/-- The initial serialization of `IPGenerator.pack` (checksum field zero,
identification not yet advanced), over which the checksum is computed. -/
def ipFirstBytes (s : IPGenerator) (n : Nat) : List Nat :=
  ipHeaderBytes (ipB0 s) (ipB1 s) (s.ip_hdr_len * 4 + n) s.ip_id (ipB6 s)
    (ipB7 s) s.ip_ttl s.ip_protocol 0 s.ip_src_ip s.ip_dst_ip

/-- The checksum value stored by `IPGenerator.pack`. -/
def ipCk (s : IPGenerator) (n : Nat) : Nat := chksum (ipFirstBytes s n)

/-- The twenty bytes returned by `IPGenerator.pack`: note they carry the
advanced identification together with the checksum computed over the
initial serialization. -/
def ipOutBytes (s : IPGenerator) (n : Nat) : List Nat :=
  ipHeaderBytes (ipB0 s) (ipB1 s) (s.ip_hdr_len * 4 + n) (nextIPId s.ip_id)
    (ipB6 s) (ipB7 s) s.ip_ttl s.ip_protocol (ipCk s n) s.ip_src_ip s.ip_dst_ip

/-- The `IPGenerator` state after a successful `pack`. -/
def ipNext (s : IPGenerator) (n : Nat) : IPGenerator :=
  { s with
    ip_total_len := s.ip_hdr_len * 4 + n
    ip_hdr_chksum := ipCk s n
    ip_id := nextIPId s.ip_id }

/-- Byte 12 of the TCP header (header length nibble and NS flag). -/
def tcpB13 (s : TCPGenerator) : Nat := (s.tcp_hdr_length <<< 4) ||| s.tcp_flag_ns

/-- Byte 13 of the TCP header (the eight remaining flag bits). -/
def tcpB14 (s : TCPGenerator) : Nat :=
  ((((((s.tcp_flag_cwr <<< 1 ||| s.tcp_flag_ece) <<< 1 ||| s.tcp_flag_urg)
    <<< 1 ||| s.tcp_flag_ack) <<< 1 ||| s.tcp_flag_psh) <<< 1 |||
    s.tcp_flag_rst) <<< 1 ||| s.tcp_flag_syn) <<< 1 ||| s.tcp_flag_fin

/-- The twelve pseudo-header bytes of `TCPGenerator.pack`. -/
def tcpPseudoBytes (s : TCPGenerator) : List Nat :=
  [s.ip.ip_src_ip / 16777216, s.ip.ip_src_ip / 65536 % 256,
   s.ip.ip_src_ip / 256 % 256, s.ip.ip_src_ip % 256,
   s.ip.ip_dst_ip / 16777216, s.ip.ip_dst_ip / 65536 % 256,
   s.ip.ip_dst_ip / 256 % 256, s.ip.ip_dst_ip % 256,
   0, s.ip.ip_protocol,
   (s.tcp_hdr_length * 4 + s.payload.length) / 256,
   (s.tcp_hdr_length * 4 + s.payload.length) % 256]

/-- The twenty TCP header bytes with a given checksum field value. -/
def tcpHdrBytes (s : TCPGenerator) (ck : Nat) : List Nat :=
  [s.tcp_src_port / 256, s.tcp_src_port % 256,
   s.tcp_dst_port / 256, s.tcp_dst_port % 256,
   s.tcp_sqn / 16777216, s.tcp_sqn / 65536 % 256,
   s.tcp_sqn / 256 % 256, s.tcp_sqn % 256,
   s.tcp_ack / 16777216, s.tcp_ack / 65536 % 256,
   s.tcp_ack / 256 % 256, s.tcp_ack % 256,
   tcpB13 s, tcpB14 s,
   s.tcp_win_size / 256, s.tcp_win_size % 256,
   ck / 256, ck % 256,
   s.tcp_urg_pntr / 256, s.tcp_urg_pntr % 256]

/-- The TCP checksum value stored by `TCPGenerator.pack`. -/
def tcpCk (s : TCPGenerator) : Nat :=
  chksum (tcpPseudoBytes s ++ tcpHdrBytes s 0 ++ s.payload)

/-- The eight ICMP header bytes with a given checksum field value. -/
def icmpHdrBytes (s : ICMPGenerator) (ck : Nat) : List Nat :=
  [s.icmp_type, s.icmp_code, ck / 256, ck % 256,
   s.icmp_opt / 16777216, s.icmp_opt / 65536 % 256,
   s.icmp_opt / 256 % 256, s.icmp_opt % 256]

/-- The ICMP checksum value stored by `ICMPGenerator.pack`. -/
def icmpCk (s : ICMPGenerator) : Nat :=
  chksum (icmpHdrBytes s 0 ++ s.payload)

/-! ## Arithmetic readings of the bitwise operations -/

/-- Mask with 0xffff is reduction modulo 65536. -/
theorem land_ffff (x : Nat) : x &&& 0xffff = x % 65536 := by
  have h : (0xffff : Nat) = 2 ^ 16 - 1 := by norm_num
  rw [h, Nat.and_pow_two_sub_one_eq_mod]

/-- Mask with 0xff is reduction modulo 256. -/
theorem land_ff (x : Nat) : x &&& 0xff = x % 256 := by
  have h : (0xff : Nat) = 2 ^ 8 - 1 := by norm_num
  rw [h, Nat.and_pow_two_sub_one_eq_mod]

/-- Right shift by 16 is division by 65536. -/
theorem shiftr16 (x : Nat) : x >>> 16 = x / 65536 := by
  rw [Nat.shiftRight_eq_div_pow]

/-- Right shift by 8 is division by 256. -/
theorem shiftr8 (x : Nat) : x >>> 8 = x / 256 := by
  rw [Nat.shiftRight_eq_div_pow]

/-- Left shift by 8 is multiplication by 256. -/
theorem shiftl8 (x : Nat) : x <<< 8 = x * 256 := by
  rw [Nat.shiftLeft_eq]

/-- Or-ing a shifted value with a small value is addition: the bit
ranges are disjoint. -/
theorem shiftl_lor_eq_add (a b k : Nat) (hb : b < 2 ^ k) :
    (a <<< k) ||| b = a * 2 ^ k + b := by
  rw [Nat.shiftLeft_eq, Nat.mul_comm a (2 ^ k), ← Nat.mul_add_lt_is_or hb a,
    Nat.mul_comm (2 ^ k) a]

/-! ## One's-complement normal form -/

/-- The normal form is at most 0xFFFF. -/
theorem ocNorm_le (x : Nat) : ocNorm x ≤ 65535 := by
  unfold ocNorm
  split
  · omega
  · have := Nat.mod_lt (x - 1) (show 0 < 65535 by omega)
    omega

/-- Values that already fit in one fold are their own normal form. -/
theorem ocNorm_small {x : Nat} (h : x ≤ 65535) : ocNorm x = x := by
  unfold ocNorm
  split
  · omega
  · have := Nat.mod_eq_of_lt (show x - 1 < 65535 by omega)
    omega

/-- Normalizing the left summand first does not change the normal form
of a sum. -/
theorem ocNorm_add_left (a b : Nat) : ocNorm (ocNorm a + b) = ocNorm (a + b) := by
  rcases Nat.eq_zero_or_pos a with ha | ha
  · simp [ha, ocNorm]
  · have h1 : ocNorm a = (a - 1) % 65535 + 1 := by
      unfold ocNorm; rw [if_neg (by omega)]
    rw [h1]
    unfold ocNorm
    rw [if_neg (by omega), if_neg (by omega)]
    have h2 : (a - 1) % 65535 + 1 + b - 1 = (a - 1) % 65535 + b := by omega
    rw [h2, Nat.mod_add_mod]
    have h3 : a - 1 + b = a + b - 1 := by omega
    rw [h3]

/-- Helper: the single fold written as division and remainder. -/
theorem carry_around_add_eq_div_mod (a b : Nat) :
    carry_around_add a b = (a + b) / 65536 + (a + b) % 65536 := by
  show (a + b) >>> 16 + ((a + b) &&& 0xffff) = _
  rw [shiftr16, land_ffff]

/-- One end-around-carry addition of two 16-bit quantities is already in
normal form. -/
theorem carry_around_add_eq_ocNorm {a b : Nat} (ha : a ≤ 65535)
    (hb : b ≤ 65535) : carry_around_add a b = ocNorm (a + b) := by
  rw [carry_around_add_eq_div_mod]
  unfold ocNorm
  split <;> omega

/-- Folding repeatedly leaves a value at most 0x1FFFE in normal form
after one step: one fold per addition is enough. -/
theorem foldCarry_eq_ocNorm {c : Nat} (h : c ≤ 131070) :
    foldCarry c = ocNorm c := by
  by_cases h1 : c < 65536
  · rw [foldCarry, dif_pos h1, ocNorm_small (by omega)]
  · rw [foldCarry, dif_neg h1, shiftr16, land_ffff]
    have harg : c / 65536 + c % 65536 < 65536 := by omega
    rw [foldCarry, dif_pos harg]
    unfold ocNorm
    rw [if_neg (by omega)]
    omega

/-! ## The summation loop computes the normal form of the word sum -/

/-- Fuel-indexed form of the loop characterization. -/
theorem sumLoop_ocNorm_aux : ∀ (k : Nat) (ws : List Nat) (s : Nat),
    ws.length ≤ k → (∀ w ∈ ws, w < 256) → ws.length % 2 = 0 →
    s ≤ 65535 → sumLoop s ws = ocNorm (s + pairSum ws) := by
  intro k
  induction k with
  | zero =>
    intro ws s hlen _ _ hs
    match ws with
    | [] => simp [sumLoop, pairSum, ocNorm_small hs]
    | w :: ws => simp at hlen
  | succ k ih =>
    intro ws s hlen hw hpar hs
    match ws with
    | [] => simp [sumLoop, pairSum, ocNorm_small hs]
    | [w] => simp at hpar
    | w0 :: w1 :: rest =>
      have hw0 : w0 < 256 := hw w0 (by simp)
      have hw1 : w1 < 256 := hw w1 (by simp)
      have h16 : (w1 <<< 8) + w0 ≤ 65535 := by rw [shiftl8]; omega
      have hstep : sumLoop s (w0 :: w1 :: rest) =
          sumLoop (carry_around_add s ((w1 <<< 8) + w0)) rest := rfl
      rw [hstep, carry_around_add_eq_ocNorm hs h16]
      rw [ih rest _ (by simp at hlen ⊢; omega)
        (fun w hw' => hw w (by simp [hw'])) (by simp at hpar ⊢; omega)
        (ocNorm_le _)]
      rw [ocNorm_add_left]
      show ocNorm (s + ((w1 <<< 8) + w0) + pairSum rest) = _
      rw [Nat.add_assoc]
      rfl

/-- The summation loop of `chksum` computes the one's-complement normal
form of the plain sum of its 16-bit words. -/
theorem sumLoop_ocNorm (ws : List Nat) (s : Nat) (hw : ∀ w ∈ ws, w < 256)
    (hpar : ws.length % 2 = 0) (hs : s ≤ 65535) :
    sumLoop s ws = ocNorm (s + pairSum ws) :=
  sumLoop_ocNorm_aux ws.length ws s (Nat.le_refl _) hw hpar hs

/-- The reference fold with repeated carry folding also computes the
normal form of the plain word sum. -/
theorem foldl_foldCarry_ocNorm : ∀ (ws : List Nat) (s : Nat),
    (∀ w ∈ ws, w ≤ 65535) → s ≤ 65535 →
    ws.foldl (fun s w => foldCarry (s + w)) s = ocNorm (s + ws.sum) := by
  intro ws
  induction ws with
  | nil => intro s _ hs; simp [ocNorm_small hs]
  | cons w ws ih =>
    intro s hw hs
    simp only [List.foldl_cons, List.sum_cons]
    have hw0 : w ≤ 65535 := hw w (by simp)
    rw [foldCarry_eq_ocNorm (by omega)]
    rw [ih _ (fun x hx => hw x (by simp [hx])) (ocNorm_le _)]
    rw [ocNorm_add_left, Nat.add_assoc]

/-! ## Big-endian byte strings and base-256 digits -/

/-- Accumulator decomposition for the big-endian fold. -/
theorem foldl_byte_acc (bs : List Nat) : ∀ a : Nat,
    bs.foldl (fun acc b => acc * 256 + b) a =
    a * 256 ^ bs.length + bs.foldl (fun acc b => acc * 256 + b) 0 := by
  induction bs with
  | nil => simp
  | cons b bs ih =>
    intro a
    simp only [List.foldl_cons, List.length_cons]
    rw [ih (a * 256 + b), ih (0 * 256 + b)]
    ring

/-- A byte string of length `L` denotes a number below `256 ^ L`. -/
theorem bytesToNat_lt (bs : List Nat) (h : ∀ b ∈ bs, b < 256) :
    bytesToNat bs < 256 ^ bs.length := by
  induction bs with
  | nil => simp [bytesToNat]
  | cons b bs ih =>
    have hb : b < 256 := h b (by simp)
    have hrec : bytesToNat bs < 256 ^ bs.length :=
      ih (fun x hx => h x (by simp [hx]))
    show List.foldl _ _ _ < _
    simp only [List.foldl_cons]
    rw [foldl_byte_acc, List.length_cons, pow_succ]
    unfold bytesToNat at hrec
    have hp : 0 < 256 ^ bs.length := Nat.pos_pow_of_pos _ (by omega)
    nlinarith [hrec, hb, hp]

/-- Peeling the first two bytes off a big-endian byte string. -/
theorem bytesToNat_cons_cons (b1 b2 : Nat) (rest : List Nat) :
    bytesToNat (b1 :: b2 :: rest) =
    (b1 * 256 + b2) * 256 ^ rest.length + bytesToNat rest := by
  show List.foldl _ _ _ = _
  simp only [List.foldl_cons]
  rw [foldl_byte_acc]
  unfold bytesToNat
  ring

/-- The word-extraction loop does not depend on the fuel, provided the
fuel bounds the number of base-256 digits. -/
theorem toWords_fuel_irrelevant : ∀ (f f' n : Nat), n < 256 ^ f →
    n < 256 ^ f' → toWords f n = toWords f' n := by
  intro f
  induction f with
  | zero =>
    intro f' n h _
    have hn : n = 0 := by simpa using h
    subst hn
    cases f' <;> simp [toWords]
  | succ f ih =>
    intro f' n h h'
    cases f' with
    | zero =>
      have hn : n = 0 := by simpa using h'
      subst hn
      simp [toWords]
    | succ f' =>
      by_cases hn : n = 0
      · simp [toWords, hn]
      · simp only [toWords, if_neg hn]
        congr 1
        have hdiv : n >>> 8 = n / 256 := shiftr8 n
        rw [hdiv]
        apply ih
        · rw [Nat.div_lt_iff_lt_mul (by omega)]
          calc n < 256 ^ (f + 1) := h
            _ = 256 ^ f * 256 := by rw [pow_succ]
        · rw [Nat.div_lt_iff_lt_mul (by omega)]
          calc n < 256 ^ (f' + 1) := h'
            _ = 256 ^ f' * 256 := by rw [pow_succ]

/-- Every extracted word is one byte. -/
theorem toWords_entries : ∀ (f n : Nat), ∀ w ∈ toWords f n, w < 256 := by
  intro f
  induction f with
  | zero => intro n w hw; simp [toWords] at hw
  | succ f ih =>
    intro n w hw
    by_cases hn : n = 0
    · simp [toWords, hn] at hw
    · simp only [toWords, if_neg hn, List.mem_cons] at hw
      rcases hw with hw | hw
      · subst hw; rw [land_ff]; exact Nat.mod_lt _ (by omega)
      · exact ih _ w hw

/-! ## Digit sums -/

/-- Unfolding equation: the zero case. -/
theorem digitSum16_zero : digitSum16 0 = 0 := by
  rw [digitSum16]
  simp

/-- Unfolding equation: the step case. -/
theorem digitSum16_step {n : Nat} (h : n ≠ 0) :
    digitSum16 n = n % 65536 + digitSum16 (n / 65536) := by
  rw [digitSum16, if_neg h]

/-- Numbers below 65536 are their own digit sum. -/
theorem digitSum16_small {n : Nat} (h : n < 65536) : digitSum16 n = n := by
  by_cases hn : n = 0
  · simp [hn, digitSum16_zero]
  · rw [digitSum16_step hn, Nat.mod_eq_of_lt h, Nat.div_eq_of_lt h,
      digitSum16_zero]
    omega

/-- Digit sums split across non-overlapping base-65536 ranges. -/
theorem digitSum16_mul_add : ∀ (m w r : Nat), w < 65536 → r < 65536 ^ m →
    digitSum16 (w * 65536 ^ m + r) = digitSum16 w + digitSum16 r := by
  intro m
  induction m with
  | zero =>
    intro w r hw hr
    have hr0 : r = 0 := by simpa using hr
    subst hr0
    simp [digitSum16_zero]
  | succ m ih =>
    intro w r hw hr
    by_cases hw0 : w = 0
    · subst hw0; simp [digitSum16_zero]
    · have hp : 0 < 65536 ^ (m + 1) := Nat.pos_pow_of_pos _ (by omega)
      have hN : w * 65536 ^ (m + 1) + r ≠ 0 := by
        have : 1 ≤ w := by omega
        nlinarith
      have harr : w * 65536 ^ (m + 1) + r = r + w * 65536 ^ m * 65536 := by
        rw [pow_succ]; ring
      have hmod : (w * 65536 ^ (m + 1) + r) % 65536 = r % 65536 := by
        rw [harr, Nat.add_mul_mod_self_right]
      have hdiv : (w * 65536 ^ (m + 1) + r) / 65536 =
          w * 65536 ^ m + r / 65536 := by
        rw [harr, Nat.add_mul_div_right _ _ (by omega : (0:Nat) < 65536)]
        omega
      have hr' : r / 65536 < 65536 ^ m := by
        rw [Nat.div_lt_iff_lt_mul (by omega)]
        calc r < 65536 ^ (m + 1) := hr
          _ = 65536 ^ m * 65536 := by rw [pow_succ]
      rw [digitSum16_step hN, hmod, hdiv, ih w (r / 65536) hw hr']
      by_cases hr0 : r = 0
      · subst hr0; simp [digitSum16_zero]
      · rw [digitSum16_step hr0]; omega

/-! ## Evenize -/

/-- Evenize yields an even number of words. -/
theorem evenize_length_even (l : List Nat) : (evenize l).length % 2 = 0 := by
  unfold evenize
  split
  · simp only [List.length_append, List.length_cons, List.length_nil]
    omega
  · omega

/-- Evenize preserves the byte bound. -/
theorem evenize_entries {l : List Nat} (h : ∀ w ∈ l, w < 256) :
    ∀ w ∈ evenize l, w < 256 := by
  unfold evenize
  split
  · intro w hw
    rcases List.mem_append.mp hw with hw | hw
    · exact h w hw
    · simp at hw; omega
  · exact h

/-- Evenize commutes with peeling off a complete leading pair. -/
theorem evenize_cons_cons (a b : Nat) (t : List Nat) :
    evenize (a :: b :: t) = a :: b :: evenize t := by
  unfold evenize
  have hp : (a :: b :: t).length % 2 = t.length % 2 := by
    simp only [List.length_cons]; omega
  by_cases h : t.length % 2 = 1
  · rw [if_pos (by omega), if_pos h]
    simp
  · rw [if_neg (by omega), if_neg h]

/-! ## The pairing loop reads off base-65536 digits -/

/-- Paired 8-bit words of the little-endian digit list of `n` sum to the
base-65536 digit sum of `n`. -/
theorem pairSum_evenize_toWords : ∀ (f : Nat), ∀ (n : Nat), n < 256 ^ f →
    pairSum (evenize (toWords f n)) = digitSum16 n := by
  intro f
  induction f using Nat.strong_induction_on with
  | _ f ih =>
    intro n hn
    by_cases hn0 : n = 0
    · subst hn0
      have ht : toWords f 0 = [] := by cases f <;> simp [toWords]
      rw [ht]
      show pairSum (evenize []) = _
      rw [digitSum16_zero]
      unfold evenize
      simp [pairSum]
    · by_cases hsmall : n < 256
      · obtain ⟨f1, rfl⟩ : ∃ f1, f = f1 + 1 := by
          cases f with
          | zero => simp at hn; omega
          | succ f1 => exact ⟨f1, rfl⟩
        have hd : n >>> 8 = 0 := by rw [shiftr8]; omega
        have ht : toWords (f1 + 1) n = [n] := by
          simp only [toWords, if_neg hn0, hd, land_ff,
            Nat.mod_eq_of_lt hsmall]
          cases f1 <;> simp [toWords]
        rw [ht]
        have he : evenize [n] = [n, 0] := by
          unfold evenize; rw [if_pos (by simp)]; rfl
        rw [he]
        show (0 <<< 8) + n + pairSum [] = _
        rw [digitSum16_small (by omega)]
        simp [pairSum, Nat.shiftLeft_eq]
      · obtain ⟨f2, rfl⟩ : ∃ f2, f = f2 + 2 := by
          match f, hn with
          | 0, hn => simp at hn; omega
          | 1, hn => simp at hn; omega
          | f2 + 2, _ => exact ⟨f2, rfl⟩
        have hd1 : n >>> 8 = n / 256 := shiftr8 n
        have hne : n / 256 ≠ 0 := by omega
        have ht : toWords (f2 + 2) n =
            n % 256 :: (n / 256) % 256 :: toWords f2 (n / 65536) := by
          simp only [toWords, if_neg hn0, hd1, land_ff, if_neg hne,
            shiftr8, Nat.div_div_eq_div_mul]
        rw [ht, evenize_cons_cons]
        show ((n / 256 % 256) <<< 8) + n % 256 +
          pairSum (evenize (toWords f2 (n / 65536))) = _
        have hrec : n / 65536 < 256 ^ f2 := by
          rw [Nat.div_lt_iff_lt_mul (by omega)]
          calc n < 256 ^ (f2 + 2) := hn
            _ = 256 ^ f2 * 65536 := by ring
        rw [ih f2 (by omega) (n / 65536) hrec]
        rw [digitSum16_step hn0, shiftl8]
        omega

/-! ## Big-endian words and the digit sum -/

/-- Paired big-endian words of a byte string are 16-bit values. -/
theorem beWords_entries : ∀ (bs : List Nat), (∀ b ∈ bs, b < 256) →
    ∀ w ∈ beWords bs, w ≤ 65535 := by
  intro bs
  induction bs using beWords.induct with
  | case1 b1 b2 rest ih =>
    intro h w hw
    have h1 : b1 < 256 := h b1 (by simp)
    have h2 : b2 < 256 := h b2 (by simp)
    simp only [beWords, List.mem_cons] at hw
    rcases hw with hw | hw
    · omega
    · exact ih (fun x hx => h x (by simp [hx])) w hw
  | case2 b =>
    intro h w hw
    have h1 : b < 256 := h b (by simp)
    simp only [beWords, List.mem_cons] at hw
    rcases hw with hw | hw
    · omega
    · simp at hw
  | case3 =>
    intro _ w hw
    simp [beWords] at hw

/-- For an even-length byte string, the plain sum of its big-endian
16-bit words is the base-65536 digit sum of its big-endian value. -/
theorem beWords_sum_eq_digitSum16 : ∀ (m : Nat) (bs : List Nat),
    bs.length = 2 * m → (∀ b ∈ bs, b < 256) →
    (beWords bs).sum = digitSum16 (bytesToNat bs) := by
  intro m
  induction m with
  | zero =>
    intro bs hlen _
    have : bs = [] := List.length_eq_zero.mp (by omega)
    subst this
    simp [beWords, bytesToNat, digitSum16_zero]
  | succ m ih =>
    intro bs hlen hb
    match bs with
    | [] => simp at hlen
    | [b] => simp at hlen; omega
    | b1 :: b2 :: rest =>
      have h1 : b1 < 256 := hb b1 (by simp)
      have h2 : b2 < 256 := hb b2 (by simp)
      have hrest : ∀ b ∈ rest, b < 256 := fun x hx => hb x (by simp [hx])
      have hlen' : rest.length = 2 * m := by simp at hlen; omega
      show (b1 * 256 + b2) + (beWords rest).sum = _
      rw [ih rest hlen' hrest, bytesToNat_cons_cons, hlen']
      have hpow : (256 : Nat) ^ (2 * m) = 65536 ^ m := by
        rw [Nat.pow_mul]
      rw [hpow, digitSum16_mul_add m (b1 * 256 + b2) (bytesToNat rest)
        (by omega) (by rw [← hpow, ← hlen']; exact bytesToNat_lt rest hrest)]
      rw [digitSum16_small (show b1 * 256 + b2 < 65536 by omega)]

/-! ## Claim theorems for the ChecksumEngine -/

/-- Bound for the running sum of the summation loop, for any tail. -/
theorem sumLoop_le : ∀ (k : Nat) (ws : List Nat) (s : Nat), ws.length ≤ k →
    (∀ w ∈ ws, w < 256) → s ≤ 65535 → sumLoop s ws ≤ 65535 := by
  intro k
  induction k with
  | zero =>
    intro ws s hlen _ hs
    match ws with
    | [] => exact hs
    | w :: ws => simp at hlen
  | succ k ih =>
    intro ws s hlen hw hs
    match ws with
    | [] => exact hs
    | [w] => exact hs
    | w0 :: w1 :: rest =>
      have hw0 : w0 < 256 := hw w0 (by simp)
      have hw1 : w1 < 256 := hw w1 (by simp)
      have h16 : (w1 <<< 8) + w0 ≤ 65535 := by rw [shiftl8]; omega
      show sumLoop (carry_around_add s ((w1 <<< 8) + w0)) rest ≤ 65535
      refine ih rest _ (by simp at hlen ⊢; omega)
        (fun w hw' => hw w (by simp [hw'])) ?_
      rw [carry_around_add_eq_ocNorm hs h16]
      exact ocNorm_le _

/-- Claim C8: `ChecksumEngine.compute` reproduces the spec's reference
values: `0xFFFF` on the empty byte sequence and `0x220D` on the
eight-byte RFC 1071 example `[0x00,0x01,0xf2,0x03,0xf4,0xf5,0xf6,0xf7]`. -/
theorem C8_known_vectors :
    chksum [] = 0xFFFF ∧
    chksum [0x00, 0x01, 0xf2, 0x03, 0xf4, 0xf5, 0xf6, 0xf7] = 0x220D := by
  decide

/-- Claim C9: on every even-length byte sequence, the implemented
checksum (big-integer conversion, little-endian 8-bit word extraction,
conditional zero word, pairing from the low end) agrees with the
straightforward RFC 1071 reference: the one's-complement sum of the
consecutive 16-bit big-endian words of the original sequence,
complemented and masked to 16 bits. -/
theorem C9_chksum_refines_rfc1071 (bs : List Nat) (hb : ∀ b ∈ bs, b < 256)
    (hlen : bs.length % 2 = 0) : chksum bs = rfc1071_reference bs := by
  simp only [chksum, rfc1071_reference]
  have hN : bytesToNat bs < 256 ^ bs.length := bytesToNat_lt bs hb
  rw [sumLoop_ocNorm _ 0 (evenize_entries (toWords_entries _ _))
    (evenize_length_even _) (by omega)]
  rw [foldl_foldCarry_ocNorm _ 0 (beWords_entries bs hb) (by omega)]
  rw [Nat.zero_add, Nat.zero_add]
  rw [pairSum_evenize_toWords bs.length (bytesToNat bs) hN]
  rw [beWords_sum_eq_digitSum16 (bs.length / 2) bs (by omega) hb]

/-- Witness for C9 at the concrete even-length input `[69, 0]`. -/
theorem C9_witness :
    ((∀ b ∈ [69, 0], b < 256) ∧ ([69, 0] : List Nat).length % 2 = 0) ∧
    chksum [69, 0] = rfc1071_reference [69, 0] :=
  ⟨⟨by decide, by decide⟩,
    C9_chksum_refines_rfc1071 [69, 0] (by decide) (by decide)⟩

/-- Claim C3 fails on the code: on the odd-length input `[0x01]` the
implemented checksum does not equal the checksum of the input with one
trailing zero byte appended (the code pads at the front instead). -/
theorem C3_counterexample :
    ([1] : List Nat).length % 2 = 1 ∧ chksum [1] ≠ chksum ([1] ++ [0]) := by
  decide

/-- Claim C3 as amended: for every byte sequence of odd length,
`ChecksumEngine.compute` treats the input as if padded with one LEADING
zero byte: `compute(bytes)` equals `compute([0x00] ++ bytes)`. -/
theorem C3_amended_leading_pad (bs : List Nat) (hb : ∀ b ∈ bs, b < 256)
    (hlen : bs.length % 2 = 1) : chksum bs = chksum (0 :: bs) := by
  simp only [chksum]
  have h0 : bytesToNat (0 :: bs) = bytesToNat bs := by
    unfold bytesToNat
    simp only [List.foldl_cons]
  have hN : bytesToNat bs < 256 ^ bs.length := bytesToNat_lt bs hb
  have hN' : bytesToNat bs < 256 ^ (0 :: bs).length := by
    refine Nat.lt_of_lt_of_le hN (Nat.pow_le_pow_right (by omega) ?_)
    simp
  have ht : toWords bs.length (bytesToNat bs) =
      toWords (0 :: bs).length (bytesToNat bs) :=
    toWords_fuel_irrelevant _ _ _ hN hN'
  rw [h0, ← ht]

/-- Witness for the amended C3 at the concrete odd-length input `[1]`. -/
theorem C3_amended_witness :
    ((∀ b ∈ [1], b < 256) ∧ ([1] : List Nat).length % 2 = 1) ∧
    chksum [1] = chksum (0 :: [1]) :=
  ⟨⟨by decide, by decide⟩, C3_amended_leading_pad [1] (by decide) (by decide)⟩

/-- Claim C10: the checksum value always fits 16 bits; the running sum
of the summation loop stays at most 0xFFFF after each addition step; and
on 16-bit operands one end-around-carry fold equals folding repeatedly
until no carry remains. -/
theorem C10_sum_bounded :
    (∀ bs : List Nat, chksum bs ≤ 65535) ∧
    (∀ (s : Nat) (ws : List Nat), s ≤ 65535 → (∀ w ∈ ws, w < 256) →
      sumLoop s ws ≤ 65535) ∧
    (∀ a b : Nat, a ≤ 65535 → b ≤ 65535 →
      carry_around_add a b ≤ 65535 ∧ carry_around_add a b = foldCarry (a + b)) := by
  refine ⟨fun bs => ?_, fun s ws hs hw => ?_, fun a b ha hb => ?_⟩
  · simp only [chksum]
    exact Nat.sub_le _ _
  · exact sumLoop_le ws.length ws s (Nat.le_refl _) hw hs
  · rw [carry_around_add_eq_ocNorm ha hb, foldCarry_eq_ocNorm (by omega)]
    exact ⟨ocNorm_le _, rfl⟩

/-- Witness for C10 at concrete inputs. -/
theorem C10_witness :
    chksum [7] ≤ 65535 ∧
    (3 ≤ 65535 ∧ (∀ w ∈ [250], w < 256) ∧ sumLoop 3 [250] ≤ 65535) ∧
    (65535 ≤ 65535 ∧ 65535 ≤ 65535 ∧
      carry_around_add 65535 65535 ≤ 65535 ∧
      carry_around_add 65535 65535 = foldCarry (65535 + 65535)) :=
  ⟨C10_sum_bounded.1 [7],
    ⟨by decide, by decide, C10_sum_bounded.2.1 3 [250] (by decide) (by decide)⟩,
    ⟨by decide, by decide,
      (C10_sum_bounded.2.2 65535 65535 (by decide) (by decide)).1,
      (C10_sum_bounded.2.2 65535 65535 (by decide) (by decide)).2⟩⟩

/-! ## Characterization of the struct packs -/

/-- Unfolding equation for `packB` in range. -/
theorem packB_eq {x : Nat} (h : x < 256) : packB x = some [x] := by
  simp [packB, h]

/-- Unfolding equation for `packH` in range. -/
theorem packH_eq {x : Nat} (h : x < 65536) :
    packH x = some [x / 256, x % 256] := by
  simp [packH, h]

/-- Unfolding equation for `packL` in range. -/
theorem packL_eq {x : Nat} (h : x < 4294967296) :
    packL x = some [x / 16777216, x / 65536 % 256, x / 256 % 256, x % 256] := by
  simp [packL, h]

/-- Generic form of the disjoint shift-or lemma with the power spelled
as a numeral. -/
theorem lor_shift (a b k m : Nat) (hm : 2 ^ k = m) (hb : b < m) :
    (a <<< k) ||| b = a * m + b := by
  subst hm
  exact shiftl_lor_eq_add a b k hb

/-- A checksum value always fits the 16-bit checksum field. -/
theorem chksum_lt (l : List Nat) : chksum l < 65536 := by
  simp only [chksum]
  omega

/-- The in-range unfolding of the IP header struct pack. -/
theorem structIP_eq {b0 b1 tl id_ b6 b7 ttl proto ck src dst : Nat}
    (h0 : b0 < 256) (h1 : b1 < 256) (h2 : tl < 65536) (h3 : id_ < 65536)
    (h4 : b6 < 256) (h5 : b7 < 256) (h6 : ttl < 256) (h7 : proto < 256)
    (h8 : ck < 65536) (h9 : src < 4294967296) (h10 : dst < 4294967296) :
    structIP b0 b1 tl id_ b6 b7 ttl proto ck src dst =
    some (ipHeaderBytes b0 b1 tl id_ b6 b7 ttl proto ck src dst) := by
  simp [structIP, packB_eq, packH_eq, packL_eq, ipHeaderBytes,
    h0, h1, h2, h3, h4, h5, h6, h7, h8, h9, h10]

/-- The in-range unfolding of the TCP header struct pack. -/
theorem structTCP_eq {srcPort dstPort sqn ack b13 b14 win ck urg : Nat}
    (h0 : srcPort < 65536) (h1 : dstPort < 65536) (h2 : sqn < 4294967296)
    (h3 : ack < 4294967296) (h4 : b13 < 256) (h5 : b14 < 256)
    (h6 : win < 65536) (h7 : ck < 65536) (h8 : urg < 65536) :
    structTCP srcPort dstPort sqn ack b13 b14 win ck urg =
    some [srcPort / 256, srcPort % 256, dstPort / 256, dstPort % 256,
      sqn / 16777216, sqn / 65536 % 256, sqn / 256 % 256, sqn % 256,
      ack / 16777216, ack / 65536 % 256, ack / 256 % 256, ack % 256,
      b13, b14, win / 256, win % 256, ck / 256, ck % 256,
      urg / 256, urg % 256] := by
  simp [structTCP, packB_eq, packH_eq, packL_eq,
    h0, h1, h2, h3, h4, h5, h6, h7, h8]

/-- The in-range unfolding of the TCP pseudo-header struct pack. -/
theorem structPseudo_eq {src dst zb proto tcpLen : Nat}
    (h0 : src < 4294967296) (h1 : dst < 4294967296) (h2 : zb < 256)
    (h3 : proto < 256) (h4 : tcpLen < 65536) :
    structPseudo src dst zb proto tcpLen =
    some [src / 16777216, src / 65536 % 256, src / 256 % 256, src % 256,
      dst / 16777216, dst / 65536 % 256, dst / 256 % 256, dst % 256,
      zb, proto, tcpLen / 256, tcpLen % 256] := by
  simp [structPseudo, packB_eq, packH_eq, packL_eq, h0, h1, h2, h3, h4]

/-- The in-range unfolding of the ICMP header struct pack. -/
theorem structICMP_eq {type_ code ck opt : Nat}
    (h0 : type_ < 256) (h1 : code < 256) (h2 : ck < 65536)
    (h3 : opt < 4294967296) :
    structICMP type_ code ck opt =
    some [type_, code, ck / 256, ck % 256, opt / 16777216,
      opt / 65536 % 256, opt / 256 % 256, opt % 256] := by
  simp [structICMP, packB_eq, packH_eq, packL_eq, h0, h1, h2, h3]

/-! ## Characterization of `IPGenerator.pack` -/

/-- On in-range fields, `IPGenerator.pack` succeeds and produces exactly
the bytes and successor state named by `ipOutBytes` and `ipNext`. -/
theorem ipPack_eq (s : IPGenerator) (n : Nat) (hr : IPInRange s)
    (htl : s.ip_hdr_len * 4 + n < 65536) :
    s.pack n = (some (ipOutBytes s n), ipNext s n) := by
  obtain ⟨hv, hh, hdscp, hecn, hid, hflag, hfrag, httl, hproto, hsrc, hdst⟩ := hr
  have e6 : s.ip_frag_offset >>> 8 = s.ip_frag_offset / 256 := shiftr8 _
  have hb0 : ((s.ip_version <<< 4) ||| s.ip_hdr_len) < 256 := by
    rw [lor_shift s.ip_version s.ip_hdr_len 4 16 (by norm_num) hh]; omega
  have hb1 : ((s.ip_dscp <<< 2) ||| s.ip_ecn) < 256 := by
    rw [lor_shift s.ip_dscp s.ip_ecn 2 4 (by norm_num) hecn]; omega
  have hb6 : ((s.ip_flag <<< 5) ||| (s.ip_frag_offset >>> 8)) < 256 := by
    rw [e6, lor_shift s.ip_flag _ 5 32 (by norm_num) (by omega)]; omega
  have hb7 : (s.ip_frag_offset &&& 0xff) < 256 := by rw [land_ff]; omega
  have hnid : ∀ i : Nat, (if i < 0xFFFF then i + 1 else 1) < 65536 := by
    intro i; split <;> omega
  unfold IPGenerator.pack ipOutBytes ipNext ipCk ipFirstBytes ipB0 ipB1 ipB6
    ipB7 nextIPId
  dsimp only
  rw [structIP_eq hb0 hb1 (by omega) (by omega) hb6 hb7 (by omega) (by omega)
    (by omega) (by omega) (by omega)]
  dsimp only
  rw [structIP_eq hb0 hb1 (by omega) (hnid _) hb6 hb7 (by omega) (by omega)
    (chksum_lt _) (by omega) (by omega)]

/-! ## Claim theorems for IPGenerator -/

/-- Claim C1 fails on the code: on a fresh TCP-protocol builder,
`build(0)` returns a header whose checksum field was computed over the
pre-increment identification while the returned bytes carry the
post-increment identification, so running the checksum over the full
returned 20-byte header yields 0xFFFE, not 0x0000. -/
theorem C1_not_self_verifying :
    ((mkIPGenerator 6).pack 0).1.map chksum = some 0xFFFE ∧
    ((mkIPGenerator 6).pack 0).1 ≠ none ∧ (0xFFFE : Nat) ≠ 0 := by
  decide

/-- The wrapped increment always lands in `[1, 0xFFFF]`. -/
theorem nextIPId_mem (i : Nat) : 1 ≤ nextIPId i ∧ nextIPId i ≤ 0xFFFF := by
  unfold nextIPId
  split <;> omega

/-- Iterating the wrapped increment inside one lap adds one per call. -/
theorem nextIPId_iterate : ∀ (k i : Nat), 1 ≤ i → i + k ≤ 65535 →
    nextIPId^[k] i = i + k := by
  intro k
  induction k with
  | zero => intro i _ _; simp
  | succ k ih =>
    intro i h1 h2
    rw [Function.iterate_succ_apply]
    have hstep : nextIPId i = i + 1 := by unfold nextIPId; rw [if_pos (by omega)]
    rw [hstep, ih (i + 1) (by omega) (by omega)]
    omega

/-- Along repeated in-range `pack` calls the fields stay in range, the
header length is untouched, and the identification counter traces the
iterated wrapped increment. -/
theorem ipCalls_spec (n : Nat) (s : IPGenerator) (hr : IPInRange s)
    (htl : s.ip_hdr_len * 4 + n < 65536) : ∀ k : Nat,
    IPInRange (ipCalls n s k) ∧ (ipCalls n s k).ip_hdr_len = s.ip_hdr_len ∧
    (ipCalls n s k).ip_id = nextIPId^[k] s.ip_id := by
  intro k
  induction k with
  | zero => exact ⟨hr, rfl, rfl⟩
  | succ k ih =>
    obtain ⟨ihr, ihh, ihid⟩ := ih
    have htl' : (ipCalls n s k).ip_hdr_len * 4 + n < 65536 := by
      rw [ihh]; exact htl
    have hstep : ipCalls n s (k + 1) = ((ipCalls n s k).pack n).2 := rfl
    rw [hstep, ipPack_eq _ n ihr htl']
    obtain ⟨q1, q2, q3, q4, q5, q6, q7, q8, q9, q10, q11⟩ := ihr
    refine ⟨?_, ?_, ?_⟩
    · unfold IPInRange ipNext at *
      dsimp only
      have := nextIPId_mem (ipCalls n s k).ip_id
      exact ⟨q1, q2, q3, q4, by omega, q6, q7, q8, q9, q10, q11⟩
    · unfold ipNext
      dsimp only
      exact ihh
    · unfold ipNext
      dsimp only
      rw [Function.iterate_succ_apply', ihid]

/-- Claim C5: a `pack` call on in-range fields advances the
identification counter by one with the 0xFFFF-to-1 wrap, the advanced
counter always lies in `[1, 0xFFFF]` (never 0), and starting from a
fresh counter value 1, after 0xFFFF consecutive calls the counter is
back at 1, so the next call uses identification 1. -/
theorem C5_identification_counter (s : IPGenerator) (n : Nat)
    (hr : IPInRange s) (htl : s.ip_hdr_len * 4 + n < 65536) :
    ((s.pack n).2.ip_id = nextIPId s.ip_id ∧
      1 ≤ (s.pack n).2.ip_id ∧ (s.pack n).2.ip_id ≤ 0xFFFF) ∧
    (s.ip_id = 1 → (ipCalls n s 0xFFFF).ip_id = 1) := by
  constructor
  · rw [ipPack_eq s n hr htl]
    have hm := nextIPId_mem s.ip_id
    have hproj : (ipNext s n).ip_id = nextIPId s.ip_id := rfl
    rw [hproj]
    exact ⟨rfl, hm.1, hm.2⟩
  · intro h1
    rw [(ipCalls_spec n s hr htl 0xFFFF).2.2, h1]
    have h65534 : nextIPId^[65534] 1 = 65535 :=
      nextIPId_iterate 65534 1 (by omega) (by omega)
    show nextIPId^[65534 + 1] 1 = 1
    rw [Function.iterate_succ_apply', h65534]
    unfold nextIPId
    norm_num

/-- Witness for C5 at the fresh TCP-protocol builder with an empty
payload. -/
theorem C5_witness :
    (IPInRange (mkIPGenerator 6) ∧
      (mkIPGenerator 6).ip_hdr_len * 4 + 0 < 65536) ∧
    ((((mkIPGenerator 6).pack 0).2.ip_id = nextIPId (mkIPGenerator 6).ip_id ∧
      1 ≤ ((mkIPGenerator 6).pack 0).2.ip_id ∧
      ((mkIPGenerator 6).pack 0).2.ip_id ≤ 0xFFFF) ∧
    ((mkIPGenerator 6).ip_id = 1 → (ipCalls 0 (mkIPGenerator 6) 0xFFFF).ip_id = 1)) :=
  ⟨⟨by decide, by decide⟩,
    C5_identification_counter (mkIPGenerator 6) 0 (by decide) (by decide)⟩

/-- Claim C7: for in-range field assignments, parsing the 20-byte output
of `pack` by the RFC 791 layout recovers every assigned field value
except the checksum and identification fields, which `pack` computes and
advances. -/
theorem C7_roundtrip (s : IPGenerator) (n : Nat) (hr : IPInRange s)
    (htl : s.ip_hdr_len * 4 + n < 65536) :
    ∃ out, (s.pack n).1 = some out ∧
      parseVersion out = s.ip_version ∧ parseIHL out = s.ip_hdr_len ∧
      parseDSCP out = s.ip_dscp ∧ parseECN out = s.ip_ecn ∧
      parseFlags out = s.ip_flag ∧ parseFragOffset out = s.ip_frag_offset ∧
      parseTTL out = s.ip_ttl ∧ parseProtocol out = s.ip_protocol ∧
      parseSrc out = s.ip_src_ip ∧ parseDst out = s.ip_dst_ip := by
  have hr' := hr
  obtain ⟨hv, hh, hdscp, hecn, hid, hflag, hfrag, httl, hproto, hsrc, hdst⟩ := hr'
  have e0 : ipB0 s = s.ip_version * 16 + s.ip_hdr_len := by
    unfold ipB0; rw [lor_shift _ _ 4 16 (by norm_num) hh]
  have e1 : ipB1 s = s.ip_dscp * 4 + s.ip_ecn := by
    unfold ipB1; rw [lor_shift _ _ 2 4 (by norm_num) hecn]
  have e6 : ipB6 s = s.ip_flag * 32 + s.ip_frag_offset / 256 := by
    unfold ipB6; rw [shiftr8, lor_shift _ _ 5 32 (by norm_num) (by omega)]
  have e7 : ipB7 s = s.ip_frag_offset % 256 := land_ff _
  refine ⟨ipOutBytes s n, by rw [ipPack_eq s n hr htl], ?_, ?_, ?_,
    ?_, ?_, ?_, ?_, ?_, ?_, ?_⟩ <;>
    simp only [parseVersion, parseIHL, parseDSCP, parseECN, parseFlags,
      parseFragOffset, parseTTL, parseProtocol, parseSrc, parseDst, byteAt,
      ipOutBytes, ipHeaderBytes, e0, e1, e6, e7, List.getD_cons_zero,
      List.getD_cons_succ] <;>
    omega

/-- Witness for C7 at a concrete in-range builder. -/
theorem C7_witness :
    (IPInRange (mkIPGenerator 6) ∧
      (mkIPGenerator 6).ip_hdr_len * 4 + 20 < 65536) ∧
    (∃ out, ((mkIPGenerator 6).pack 20).1 = some out ∧
      parseVersion out = (mkIPGenerator 6).ip_version ∧
      parseIHL out = (mkIPGenerator 6).ip_hdr_len ∧
      parseDSCP out = (mkIPGenerator 6).ip_dscp ∧
      parseECN out = (mkIPGenerator 6).ip_ecn ∧
      parseFlags out = (mkIPGenerator 6).ip_flag ∧
      parseFragOffset out = (mkIPGenerator 6).ip_frag_offset ∧
      parseTTL out = (mkIPGenerator 6).ip_ttl ∧
      parseProtocol out = (mkIPGenerator 6).ip_protocol ∧
      parseSrc out = (mkIPGenerator 6).ip_src_ip ∧
      parseDst out = (mkIPGenerator 6).ip_dst_ip) :=
  ⟨⟨by decide, by decide⟩,
    C7_roundtrip (mkIPGenerator 6) 20 (by decide) (by decide)⟩

/-! ## Claim theorems for TCPGenerator and ICMPGenerator -/

/-- The successor state of an in-range IP builder is in range. -/
theorem ipNext_inRange (s : IPGenerator) (n : Nat) (hr : IPInRange s) :
    IPInRange (ipNext s n) := by
  obtain ⟨q1, q2, q3, q4, q5, q6, q7, q8, q9, q10, q11⟩ := hr
  have := nextIPId_mem s.ip_id
  unfold IPInRange ipNext
  dsimp only
  exact ⟨q1, q2, q3, q4, by omega, q6, q7, q8, q9, q10, q11⟩

/-- Claim C2 as amended: on a non-zero options placeholder, `pack`
returns no output and the only state change is the checksum field having
been zeroed in preparation for the checksum computation; in particular
the embedded IP builder (its identification counter included) and every
other field are untouched. -/
theorem C2_amended_options_raise (s : TCPGenerator) (h : s.tcp_opts ≠ 0) :
    TCPGenerator.pack s = (none, { s with tcp_hdr_chksum := 0 }) := by
  unfold TCPGenerator.pack
  dsimp only
  rw [if_pos h]

/-- Claim C2 as stated fails on the code: a builder whose checksum field
holds 5 (as it would after any earlier successful `pack`) and whose
options placeholder is non-zero has its TCP checksum field mutated to 0
by the failing `pack` call. -/
theorem C2_counterexample :
    ({ mkTCPGenerator 0 [] with tcp_opts := 1, tcp_hdr_chksum := 5
       } : TCPGenerator).tcp_opts ≠ 0 ∧
    (TCPGenerator.pack { mkTCPGenerator 0 [] with
      tcp_opts := 1, tcp_hdr_chksum := 5 }).1 = none ∧
    (TCPGenerator.pack { mkTCPGenerator 0 [] with
      tcp_opts := 1, tcp_hdr_chksum := 5 }).2.tcp_hdr_chksum ≠ 5 := by
  decide

/-- Witness for the amended C2 at a concrete builder. -/
theorem C2_amended_witness :
    ({ mkTCPGenerator 0 [] with tcp_opts := 1, tcp_hdr_chksum := 5
       } : TCPGenerator).tcp_opts ≠ 0 ∧
    TCPGenerator.pack { mkTCPGenerator 0 [] with
        tcp_opts := 1, tcp_hdr_chksum := 5 } =
      (none, { ({ mkTCPGenerator 0 [] with tcp_opts := 1, tcp_hdr_chksum := 5
        } : TCPGenerator) with tcp_hdr_chksum := 0 }) :=
  ⟨by decide, C2_amended_options_raise _ (by decide)⟩

/-- `ICMPGenerator.pack` never touches the option field. -/
theorem icmpPack_opt (s : ICMPGenerator) :
    (ICMPGenerator.pack s).2.icmp_opt = s.icmp_opt := by
  unfold ICMPGenerator.pack
  dsimp only
  split
  · rfl
  · split
    · rfl
    · split
      · rfl
      · rfl

/-- `Ping.pack` adds exactly one to the 32-bit option field. -/
theorem pingPack_opt (s : ICMPGenerator) :
    (Ping.pack s).2.icmp_opt = s.icmp_opt + 1 := by
  unfold Ping.pack
  rw [icmpPack_opt]

/-- After `k` calls the option field has grown by `k`. -/
theorem pingCalls_opt (s : ICMPGenerator) : ∀ k : Nat,
    (pingCalls s k).icmp_opt = s.icmp_opt + k := by
  intro k
  induction k with
  | zero => rfl
  | succ k ih =>
    show (Ping.pack (pingCalls s k)).2.icmp_opt = _
    rw [pingPack_opt, ih]
    omega

/-- Claim C6 fails on the code: on the `Ping` instance with identifier 0,
the 65536th `build()` call changes the high 16 bits of the option field
(the identifier) from 0 to 1, because the sequence increment carries out
of the low half. -/
theorem C6_counterexample :
    (pingCalls (mkPing 0) 65535).icmp_opt >>> 16 = 0 ∧
    (Ping.pack (pingCalls (mkPing 0) 65535)).2.icmp_opt >>> 16 = 1 := by
  have h0 : (mkPing 0).icmp_opt = 0 := rfl
  have h1 : (pingCalls (mkPing 0) 65535).icmp_opt = 65535 := by
    rw [pingCalls_opt, h0]
  constructor
  · rw [h1, shiftr16]
  · rw [pingPack_opt, h1, shiftr16]

/-- Claim C6 as amended: `build()` adds exactly one to the 32-bit option
field; as long as the low 16 bits (the sequence number) are below
0xFFFF, this increments the low half by one and leaves the high half
(the identifier) unchanged — but when the low half is 0xFFFF the
increment carries into the identifier. -/
theorem C6_amended_sequence_increment (s : ICMPGenerator)
    (h : s.icmp_opt % 65536 < 65535) :
    (Ping.pack s).2.icmp_opt = s.icmp_opt + 1 ∧
    (Ping.pack s).2.icmp_opt % 65536 = s.icmp_opt % 65536 + 1 ∧
    (Ping.pack s).2.icmp_opt >>> 16 = s.icmp_opt >>> 16 := by
  rw [pingPack_opt, shiftr16, shiftr16]
  refine ⟨rfl, by omega, by omega⟩

/-- Witness for the amended C6 at the fresh default `Ping`. -/
theorem C6_amended_witness :
    (mkPing 0).icmp_opt % 65536 < 65535 ∧
    ((Ping.pack (mkPing 0)).2.icmp_opt = (mkPing 0).icmp_opt + 1 ∧
     (Ping.pack (mkPing 0)).2.icmp_opt % 65536 = (mkPing 0).icmp_opt % 65536 + 1 ∧
     (Ping.pack (mkPing 0)).2.icmp_opt >>> 16 = (mkPing 0).icmp_opt >>> 16) :=
  ⟨by decide, C6_amended_sequence_increment (mkPing 0) (by decide)⟩

/-- On in-range fields, `ICMPGenerator.pack` succeeds and produces the
IP header followed by the ICMP message, with the stated successor
state. -/
theorem icmpPack_eq (s : ICMPGenerator) (hi : ICMPInRange s)
    (hr : IPInRange s.ip)
    (hlen : s.ip.ip_hdr_len * 4 + (8 + s.payload.length) < 65536) :
    ICMPGenerator.pack s =
    (some (ipOutBytes s.ip (8 + s.payload.length) ++
        (icmpHdrBytes s (icmpCk s) ++ s.payload)),
      { s with icmp_hdr_chksum := icmpCk s
               ip := ipNext s.ip (8 + s.payload.length) }) := by
  obtain ⟨h1, h2, h3⟩ := hi
  unfold ICMPGenerator.pack icmpCk icmpHdrBytes
  dsimp only
  rw [structICMP_eq h1 h2 (by omega) h3]
  dsimp only
  rw [structICMP_eq h1 h2 (chksum_lt _) h3]
  dsimp only
  have hlen8 : ([s.icmp_type, s.icmp_code, chksum
      ([s.icmp_type, s.icmp_code, 0 / 256, 0 % 256, s.icmp_opt / 16777216,
        s.icmp_opt / 65536 % 256, s.icmp_opt / 256 % 256, s.icmp_opt % 256] ++
        s.payload) / 256, chksum
      ([s.icmp_type, s.icmp_code, 0 / 256, 0 % 256, s.icmp_opt / 16777216,
        s.icmp_opt / 65536 % 256, s.icmp_opt / 256 % 256, s.icmp_opt % 256] ++
        s.payload) % 256, s.icmp_opt / 16777216, s.icmp_opt / 65536 % 256,
      s.icmp_opt / 256 % 256, s.icmp_opt % 256] ++ s.payload).length =
      8 + s.payload.length := by
    simp
    omega
  rw [hlen8, ipPack_eq s.ip _ hr hlen]

/-- On in-range fields with a zero options placeholder,
`TCPGenerator.pack` succeeds and produces the IP header, the TCP header
and the payload, with the stated successor state. -/
theorem tcpPack_eq (s : TCPGenerator) (ht : TCPInRange s)
    (hopts : s.tcp_opts = 0) (hr : IPInRange s.ip)
    (hlen : s.tcp_hdr_length * 4 + s.payload.length < 65536)
    (hlen2 : s.ip.ip_hdr_len * 4 + (20 + s.payload.length) < 65536) :
    TCPGenerator.pack s =
    (some (ipOutBytes s.ip (20 + s.payload.length) ++
        tcpHdrBytes s (tcpCk s) ++ s.payload),
      { s with tcp_hdr_chksum := tcpCk s
               ip := ipNext s.ip (20 + s.payload.length) }) := by
  obtain ⟨hsp, hdp, hsq, hak, hhl, hns, hcwr, hece, hurg, hack, hpsh, hrst,
    hsyn, hfin, hwin, hurgp⟩ := ht
  have hr' := hr
  obtain ⟨q1, q2, q3, q4, q5, q6, q7, q8, q9, q10, q11⟩ := hr'
  have hb13 : ((s.tcp_hdr_length <<< 4) ||| s.tcp_flag_ns) < 256 := by
    rw [lor_shift _ _ 4 16 (by norm_num) (by omega)]
    omega
  have hb14 : ((((((s.tcp_flag_cwr <<< 1 ||| s.tcp_flag_ece) <<< 1 |||
      s.tcp_flag_urg) <<< 1 ||| s.tcp_flag_ack) <<< 1 ||| s.tcp_flag_psh)
      <<< 1 ||| s.tcp_flag_rst) <<< 1 ||| s.tcp_flag_syn) <<< 1 |||
      s.tcp_flag_fin < 256 := by
    rw [lor_shift _ _ 1 2 (by norm_num) hfin,
      lor_shift _ _ 1 2 (by norm_num) hsyn,
      lor_shift _ _ 1 2 (by norm_num) hrst,
      lor_shift _ _ 1 2 (by norm_num) hpsh,
      lor_shift _ _ 1 2 (by norm_num) hack,
      lor_shift _ _ 1 2 (by norm_num) hurg,
      lor_shift _ _ 1 2 (by norm_num) hece]
    omega
  unfold TCPGenerator.pack tcpCk tcpHdrBytes tcpPseudoBytes tcpB13 tcpB14
  dsimp only
  rw [if_neg (by simp [hopts])]
  rw [structPseudo_eq q10 q11 (by omega) q9 (by omega)]
  dsimp only
  rw [structTCP_eq hsp hdp hsq hak hb13 hb14 hwin (by omega) hurgp]
  dsimp only
  rw [structTCP_eq hsp hdp hsq hak hb13 hb14 hwin (chksum_lt _) hurgp]
  dsimp only
  have hlen20 : ∀ (a b c d e f g h i j k l m n o p q r t u : Nat),
      ([a, b, c, d, e, f, g, h, i, j, k, l, m, n, o, p, q, r, t, u] :
        List Nat).length + s.payload.length = 20 + s.payload.length := by
    intro a b c d e f g h i j k l m n o p q r t u
    simp
  rw [hlen20, ipPack_eq s.ip _ hr hlen2]

/-- The twenty packed bytes are twenty bytes long. -/
theorem ipOutBytes_length (s : IPGenerator) (n : Nat) :
    (ipOutBytes s n).length = 20 := rfl

/-- Two serializations that share everything but the identification and
checksum field values agree at every byte position outside bytes 4, 5,
10 and 11. -/
theorem ipHeaderBytes_get_ne (b0 b1 tl id1 id2 b6 b7 ttl proto ck1 ck2 src
    dst : Nat) : ∀ i : Nat, i ≠ 4 → i ≠ 5 → i ≠ 10 → i ≠ 11 →
    (ipHeaderBytes b0 b1 tl id1 b6 b7 ttl proto ck1 src dst)[i]? =
    (ipHeaderBytes b0 b1 tl id2 b6 b7 ttl proto ck2 src dst)[i]? := by
  intro i h4 h5 h10 h11
  unfold ipHeaderBytes
  rcases i with _|_|_|_|_|_|_|_|_|_|_|_|_|_|_|_|_|_|_|_|i <;>
    first | rfl | omega

/-- The `pack` output bytes of a builder and of its successor state
agree outside the identification and checksum bytes. -/
theorem ipOutBytes_get_ne (s : IPGenerator) (n : Nat) :
    ∀ i : Nat, i ≠ 4 → i ≠ 5 → i ≠ 10 → i ≠ 11 →
    (ipOutBytes s n)[i]? = (ipOutBytes (ipNext s n) n)[i]? := by
  intro i h4 h5 h10 h11
  have e0 : ipB0 (ipNext s n) = ipB0 s := rfl
  have e1 : ipB1 (ipNext s n) = ipB1 s := rfl
  have e6 : ipB6 (ipNext s n) = ipB6 s := rfl
  have e7 : ipB7 (ipNext s n) = ipB7 s := rfl
  have ehl : (ipNext s n).ip_hdr_len = s.ip_hdr_len := rfl
  have ettl : (ipNext s n).ip_ttl = s.ip_ttl := rfl
  have ep : (ipNext s n).ip_protocol = s.ip_protocol := rfl
  have es : (ipNext s n).ip_src_ip = s.ip_src_ip := rfl
  have ed : (ipNext s n).ip_dst_ip = s.ip_dst_ip := rfl
  unfold ipOutBytes
  rw [e0, e1, e6, e7, ehl, ettl, ep, es, ed]
  exact ipHeaderBytes_get_ne _ _ _ _ _ _ _ _ _ _ _ _ _ i h4 h5 h10 h11

/-- Lifting byte-position agreement of two equal-length prefixes across
a shared suffix. -/
theorem append_get_ne {A1 A2 T : List Nat} (hlen : A1.length = A2.length)
    (h : ∀ i, i ≠ 4 → i ≠ 5 → i ≠ 10 → i ≠ 11 → A1[i]? = A2[i]?) :
    ∀ i, i ≠ 4 → i ≠ 5 → i ≠ 10 → i ≠ 11 → (A1 ++ T)[i]? = (A2 ++ T)[i]? := by
  intro i h4 h5 h10 h11
  by_cases hi : i < A1.length
  · rw [List.getElem?_append_left hi, List.getElem?_append_left (by omega)]
    exact h i h4 h5 h10 h11
  · rw [List.getElem?_append_right (by omega),
      List.getElem?_append_right (by omega), hlen]

/-- Claim C4: two consecutive `pack` calls on an unmodified in-range TCP
builder (with zero options) or ICMP builder both succeed, return outputs
of equal length, and agree at every byte position other than the IP
identification bytes 4-5 and the IP checksum bytes 10-11. -/
theorem C4_idempotent_up_to_counters :
    (∀ s : TCPGenerator, TCPInRange s → s.tcp_opts = 0 → IPInRange s.ip →
      s.tcp_hdr_length * 4 + s.payload.length < 65536 →
      s.ip.ip_hdr_len * 4 + (20 + s.payload.length) < 65536 →
      ∃ a1 a2, (TCPGenerator.pack s).1 = some a1 ∧
        (TCPGenerator.pack (TCPGenerator.pack s).2).1 = some a2 ∧
        a1.length = a2.length ∧
        ∀ i, i ≠ 4 → i ≠ 5 → i ≠ 10 → i ≠ 11 → a1[i]? = a2[i]?) ∧
    (∀ s : ICMPGenerator, ICMPInRange s → IPInRange s.ip →
      s.ip.ip_hdr_len * 4 + (8 + s.payload.length) < 65536 →
      ∃ a1 a2, (ICMPGenerator.pack s).1 = some a1 ∧
        (ICMPGenerator.pack (ICMPGenerator.pack s).2).1 = some a2 ∧
        a1.length = a2.length ∧
        ∀ i, i ≠ 4 → i ≠ 5 → i ≠ 10 → i ≠ 11 → a1[i]? = a2[i]?) := by
  constructor
  · intro s ht hopts hr hlen hlen2
    have hpk1 := tcpPack_eq s ht hopts hr hlen hlen2
    have ht1 : TCPInRange (TCPGenerator.pack s).2 := by rw [hpk1]; exact ht
    have hopts1 : (TCPGenerator.pack s).2.tcp_opts = 0 := by rw [hpk1]; exact hopts
    have hr1 : IPInRange (TCPGenerator.pack s).2.ip := by
      rw [hpk1]; exact ipNext_inRange _ _ hr
    have hlen1 : (TCPGenerator.pack s).2.tcp_hdr_length * 4 +
        (TCPGenerator.pack s).2.payload.length < 65536 := by
      rw [hpk1]; exact hlen
    have hlen21 : (TCPGenerator.pack s).2.ip.ip_hdr_len * 4 +
        (20 + (TCPGenerator.pack s).2.payload.length) < 65536 := by
      rw [hpk1]; exact hlen2
    have hpk2 := tcpPack_eq _ ht1 hopts1 hr1 hlen1 hlen21
    have e1 : (TCPGenerator.pack s).2.ip = ipNext s.ip (20 + s.payload.length) := by
      rw [hpk1]
    have e2 : (TCPGenerator.pack s).2.payload = s.payload := by rw [hpk1]
    have e3 : tcpHdrBytes (TCPGenerator.pack s).2
        (tcpCk (TCPGenerator.pack s).2) = tcpHdrBytes s (tcpCk s) := by
      rw [hpk1]
      rfl
    have e4 : (TCPGenerator.pack s).2.tcp_hdr_length = s.tcp_hdr_length := by
      rw [hpk1]
    rw [e1, e2, e3] at hpk2
    refine ⟨_, _, by rw [hpk1], by rw [hpk2], ?_, ?_⟩
    · simp [List.length_append, ipOutBytes_length]
    · refine append_get_ne (by simp [List.length_append, ipOutBytes_length]) ?_
      exact append_get_ne (by simp [ipOutBytes_length])
        (ipOutBytes_get_ne s.ip (20 + s.payload.length))
  · intro s hi hr hlen
    have hpk1 := icmpPack_eq s hi hr hlen
    have hi1 : ICMPInRange (ICMPGenerator.pack s).2 := by rw [hpk1]; exact hi
    have hr1 : IPInRange (ICMPGenerator.pack s).2.ip := by
      rw [hpk1]; exact ipNext_inRange _ _ hr
    have hlen1 : (ICMPGenerator.pack s).2.ip.ip_hdr_len * 4 +
        (8 + (ICMPGenerator.pack s).2.payload.length) < 65536 := by
      rw [hpk1]; exact hlen
    have hpk2 := icmpPack_eq _ hi1 hr1 hlen1
    have e1 : (ICMPGenerator.pack s).2.ip = ipNext s.ip (8 + s.payload.length) := by
      rw [hpk1]
    have e2 : (ICMPGenerator.pack s).2.payload = s.payload := by rw [hpk1]
    have e3 : icmpHdrBytes (ICMPGenerator.pack s).2
        (icmpCk (ICMPGenerator.pack s).2) = icmpHdrBytes s (icmpCk s) := by
      rw [hpk1]
      rfl
    rw [e1, e2, e3] at hpk2
    refine ⟨_, _, by rw [hpk1], by rw [hpk2], ?_, ?_⟩
    · simp [List.length_append, ipOutBytes_length]
    · exact append_get_ne (by simp [ipOutBytes_length])
        (ipOutBytes_get_ne s.ip (8 + s.payload.length))

/-- Witness for C4 at concrete fresh TCP and ICMP builders with empty
payloads. -/
theorem C4_witness :
    ((TCPInRange (mkTCPGenerator 0 []) ∧ (mkTCPGenerator 0 []).tcp_opts = 0 ∧
      IPInRange (mkTCPGenerator 0 []).ip ∧
      (mkTCPGenerator 0 []).tcp_hdr_length * 4 +
        (mkTCPGenerator 0 []).payload.length < 65536 ∧
      (mkTCPGenerator 0 []).ip.ip_hdr_len * 4 +
        (20 + (mkTCPGenerator 0 []).payload.length) < 65536) ∧
      (∃ a1 a2, (TCPGenerator.pack (mkTCPGenerator 0 [])).1 = some a1 ∧
        (TCPGenerator.pack (TCPGenerator.pack (mkTCPGenerator 0 [])).2).1 =
          some a2 ∧
        a1.length = a2.length ∧
        ∀ i, i ≠ 4 → i ≠ 5 → i ≠ 10 → i ≠ 11 → a1[i]? = a2[i]?)) ∧
    ((ICMPInRange (mkICMPGenerator 8 []) ∧
      IPInRange (mkICMPGenerator 8 []).ip ∧
      (mkICMPGenerator 8 []).ip.ip_hdr_len * 4 +
        (8 + (mkICMPGenerator 8 []).payload.length) < 65536) ∧
      (∃ a1 a2, (ICMPGenerator.pack (mkICMPGenerator 8 [])).1 = some a1 ∧
        (ICMPGenerator.pack (ICMPGenerator.pack (mkICMPGenerator 8 [])).2).1 =
          some a2 ∧
        a1.length = a2.length ∧
        ∀ i, i ≠ 4 → i ≠ 5 → i ≠ 10 → i ≠ 11 → a1[i]? = a2[i]?)) :=
  ⟨⟨⟨by decide, by decide, by decide, by decide, by decide⟩,
    C4_idempotent_up_to_counters.1 (mkTCPGenerator 0 []) (by decide)
      (by decide) (by decide) (by decide) (by decide)⟩,
   ⟨⟨by decide, by decide, by decide⟩,
    C4_idempotent_up_to_counters.2 (mkICMPGenerator 8 []) (by decide)
      (by decide) (by decide)⟩⟩
